import Mathlib

/-
Verification of the Block core of go-nebulas (core/block.go) against its
natural-language specification.  The Block type, its lifecycle operations
(LinkParentBlock, SetNonce, SetTimestamp, AddTransactions, Seal), the hashing
functions (HashBlock, HashBlockStateRoot, rewardCoinbase, executeTransactions)
and the verification pipeline (Verify, VerifyHash, VerifyStateRoot) are
translated from the Go source.  External collaborators that the spec fixes as
interfaces (state trie, transaction engine, transaction pool, consensus
backend, byte encodings, the sha3 digest, the protobuf account codec) are
modelled from the spec, as marked on each definition.
-/

namespace Nebulas

/-- Hash is an opaque byte-sequence identifier (spec: value types with
equality; `Hash.Equals` is byte equality). -/
abbrev Hash := List Nat

/-- Address is the opaque byte sequence of an account address. -/
abbrev Address := List Nat

/-- BlockReward given to coinbase (constant from core/block.go). -/
def BlockReward : Nat := 16

/-- UINT64 is the modulus of the Go uint64 type; balance arithmetic in
rewardCoinbase wraps at this modulus. -/
def UINT64 : Nat := 2 ^ 64

/-- Modelled from the spec: the external state-trie collaborator is an
authenticated key-value store with get, put, rootHash and clone
(spec section 6).  It is modelled as a list of key-value entries; clone is
value copy, which in a pure embedding is the identity. -/
abbrev Trie := List (List Nat × List Nat)

/-- Modelled from the spec: trie lookup, returning the stored bytes of a key
or none when the key is absent. -/
def trieGet (k : List Nat) : Trie → Option (List Nat)
  | [] => none
  | p :: rest => if p.1 = k then some p.2 else trieGet k rest

/-- Modelled from the spec: trie update, replacing the value of an existing
key in place or appending a fresh entry. -/
def triePut (k v : List Nat) : Trie → Trie
  | [] => [(k, v)]
  | p :: rest => if p.1 = k then (k, v) :: rest else p :: triePut k v rest

/-- Length-prefixed serialization of one trie entry, used by the modelled
root hash. -/
def encEntry (p : List Nat × List Nat) : List Nat :=
  p.1.length :: (p.1 ++ (p.2.length :: p.2))

/-- Modelled from the spec: the trie root hash commits to the entire snapshot
(spec glossary); it is idealized as an injective serialization of the
entries, so two stores with different contents have different roots. -/
def trieRootHash : Trie → List Nat
  | [] => []
  | p :: rest => encEntry p ++ trieRootHash rest

/-- Little-endian base-256 digits of a natural number, canonical (no trailing
zero byte); the first argument is fuel, always called with fuel at least the
number itself. -/
def natToBytesLEAux : Nat → Nat → List Nat
  | 0, _ => []
  | _ + 1, 0 => []
  | fuel + 1, n + 1 => ((n + 1) % 256) :: natToBytesLEAux fuel ((n + 1) / 256)

/-- Canonical little-endian byte encoding of a natural number. -/
def natToBytesLE (n : Nat) : List Nat :=
  natToBytesLEAux n n

/-- Value of a little-endian byte list. -/
def bytesToNatLE : List Nat → Nat
  | [] => 0
  | b :: rest => b + 256 * bytesToNatLE rest

/-- Modelled from the spec: proto.Marshal of the coinbase Account record
(core/pb Account, not under src), which carries a uint64 balance; the
encoding is canonical and never fails. -/
def encodeAccount (balance : Nat) : List Nat :=
  natToBytesLE balance

/-- Modelled from the spec: proto.Unmarshal of the coinbase Account record;
it fails (returns none) on malformed bytes, modelled as a non-canonical
byte list (a trailing zero byte or an out-of-range byte). -/
def decodeAccount (l : List Nat) : Option Nat :=
  if l.getLast? == some 0 || l.any (fun b => 256 ≤ b) then none
  else some (bytesToNatLE l)

/-- Modelled from the spec: byteutils.FromUint64, the 8-byte big-endian
encoding of a uint64 (spec section 4.6). -/
def fromUint64 (n : Nat) : List Nat :=
  let m := n % UINT64
  [m / 2 ^ 56 % 256, m / 2 ^ 48 % 256, m / 2 ^ 40 % 256, m / 2 ^ 32 % 256,
   m / 2 ^ 24 % 256, m / 2 ^ 16 % 256, m / 2 ^ 8 % 256, m % 256]

/-- Modelled from the spec: byteutils.FromInt64, the 8-byte encoding of a
signed 64-bit integer, via its two's-complement residue. -/
def fromInt64 (t : Int) : List Nat :=
  fromUint64 (t % (18446744073709551616 : Int)).toNat

/-- Modelled from the spec: the external sha3.New256 digest
(golang.org/x/crypto, not part of this repository), a deterministic
collision-resistant digest of the absorbed byte stream (spec section 4.6).
It is idealized as an injective function of the stream; the development
relies only on determinism and on distinct streams having distinct
digests. -/
def sha3New256 (msg : List Nat) : List Nat :=
  msg

/-- Error values returned by the verification pipeline and by the reward and
account-codec paths. -/
inductive Err where
  | invalidBlockHash
  | invalidBlockStateRoot
  | consensus (code : Nat)
  | txVerify (code : Nat)
  | decodeAccount
deriving DecidableEq

/-- Modelled from the spec: the external Transaction collaborator
(spec section 6) with hash, execute and verify.  Execution either fails or
applies a fixed set of state-trie writes and records a receipt in the
transactions trie; structural verification returns an optional error code. -/
structure Tx where
  hash : List Nat
  succeeds : Bool
  writes : List (List Nat × List Nat)
  verifyErr : Option Nat
deriving DecidableEq

/-- Placeholder transaction used only as the default of out-of-range list
indexing, mirroring that Go slice indexing in the removal loop is always in
bounds. -/
def defaultTx : Tx :=
  { hash := [], succeeds := true, writes := [], verifyErr := none }

/-- Modelled from the spec: tx.Execute(stateTrie, txsTrie) applies the
transaction to the state trie and records it in the transactions trie, or
fails with an error (none). -/
def txExecute (tx : Tx) (st tt : Trie) : Option (Trie × Trie) :=
  if tx.succeeds then
    some (tx.writes.foldl (fun a p => triePut p.1 p.2 a) st, triePut tx.hash [] tt)
  else none

/-- Modelled from the spec: tx.Verify returns the transaction's structural
verification error, if any. -/
def txVerify (tx : Tx) : Option Nat :=
  tx.verifyErr

/-- BlockHeader of a block (core/block.go), with the source's fields. -/
structure BlockHeader where
  hash : Hash
  parentHash : Hash
  stateRoot : Hash
  nonce : Nat
  coinbase : Address
  timestamp : Int
  chainID : Nat
deriving DecidableEq

/-- Block structure (core/block.go).  The parenetBlock pointer field of the
source is modelled by passing the ancestor chain explicitly as a list to
LinkParentBlock; the shared transaction pool reference is modelled by the
list of transactions that have been Put into the pool. -/
structure Block where
  header : BlockHeader
  transactions : List Tx
  sealed : Bool
  height : Nat
  stateTrie : Trie
  txsTrie : Trie
  txPool : List Tx
deriving DecidableEq

/-- NewBlock returns a new unsealed block (core/block.go); the wall-clock
timestamp of the source is an input here. -/
def NewBlock (chainID : Nat) (coinbase : Address) (parentHash : Hash)
    (nonce : Nat) (stateTrie txsTrie : Trie) (now : Int) : Block :=
  { header :=
      { hash := [], parentHash := parentHash, stateRoot := [], nonce := nonce,
        coinbase := coinbase, timestamp := now, chainID := chainID },
    transactions := [], sealed := false, height := 0,
    stateTrie := stateTrie, txsTrie := txsTrie, txPool := [] }

/-- Byte stream absorbed by the block hasher: parentHash, the nonce as eight
bytes, the coinbase address, the timestamp as eight bytes, then every
transaction's hash in list order (core/block.go HashBlock). -/
def hashBlockInput (block : Block) : List Nat :=
  block.header.parentHash ++ fromUint64 block.header.nonce ++
    block.header.coinbase ++ fromInt64 block.header.timestamp ++
    (block.transactions.map Tx.hash).flatten

/-- HashBlock returns the hash of block (core/block.go). -/
def HashBlock (block : Block) : Hash :=
  sha3New256 (hashBlockInput block)

/-- SetNonce sets the nonce; on a sealed block the source aborts with a
fatal contract violation, modelled as none (core/block.go). -/
def SetNonce (block : Block) (nonce : Nat) : Option Block :=
  if block.sealed then none
  else some { block with header := { block.header with nonce := nonce } }

/-- SetTimestamp sets the timestamp; on a sealed block the source aborts
with a fatal contract violation, modelled as none (core/block.go). -/
def SetTimestamp (block : Block) (timestamp : Int) : Option Block :=
  if block.sealed then none
  else some { block with header := { block.header with timestamp := timestamp } }

/-- AddTransactions appends transactions to the block; on a sealed block the
source aborts with a fatal contract violation, modelled as none
(core/block.go). -/
def AddTransactions (block : Block) (txs : List Tx) : Option Block :=
  if block.sealed then none
  else some { block with transactions := block.transactions ++ txs }

/-- rewardCoinbase reads the coinbase account from the state trie (absent
means a zero-balance record), adds BlockReward to its balance at uint64
width and writes it back; a decode failure of a present record is returned
as an error with the block untouched (core/block.go).  The encode step of
the source cannot fail in the modelled codec. -/
def rewardCoinbase (block : Block) : Option Err × Block :=
  match trieGet block.header.coinbase block.stateTrie with
  | some v =>
    match decodeAccount v with
    | none => (some Err.decodeAccount, block)
    | some bal =>
      let t := triePut block.header.coinbase
        (encodeAccount ((bal + BlockReward) % UINT64)) block.stateTrie
      (none, { block with stateTrie := t })
  | none =>
    let t := triePut block.header.coinbase
      (encodeAccount ((0 + BlockReward) % UINT64)) block.stateTrie
    (none, { block with stateTrie := t })

/-- First pass of executeTransactions: execute each transaction in list
order against the two tries, collecting the indices of the transactions
whose execution fails, in increasing order (core/block.go). -/
def execPass : Trie → Trie → Nat → List Tx → Trie × Trie × List Nat
  | st, tt, _, [] => (st, tt, [])
  | st, tt, idx, tx :: rest =>
    match txExecute tx st tt with
    | some r => execPass r.1 r.2 (idx + 1) rest
    | none =>
      let r := execPass st tt (idx + 1) rest
      (r.1, r.2.1, idx :: r.2.2)

/-- One iteration of the removal loop of executeTransactions
(core/block.go): put the transaction at the invalid index back to the pool,
then shrink the slice.  The source's case analysis is kept exactly: the
last original index truncates, the branch for index zero executes
`txs = txs[0:]`, which leaves the slice unchanged, and any other index is
spliced out. -/
def removeOne (lenOfTxs : Nat) (s : List Tx × List Tx) (idx : Nat) :
    List Tx × List Tx :=
  let txs := s.1
  let pool := s.2 ++ [txs.getD idx defaultTx]
  if idx = lenOfTxs - 1 then (txs.take idx, pool)
  else if idx = 0 then (txs, pool)
  else (txs.take idx ++ txs.drop (idx + 1), pool)

/-- executeTransactions executes every transaction in order, then walks the
collected invalid indices from last to first, returning each such
transaction to the pool and shrinking the block's transaction list
(core/block.go). -/
def executeTransactions (block : Block) : Block :=
  let r := execPass block.stateTrie block.txsTrie 0 block.transactions
  let lenOfTxs := block.transactions.length
  let s := r.2.2.reverse.foldl (removeOne lenOfTxs) (block.transactions, block.txPool)
  { block with stateTrie := r.1, txsTrie := r.2.1, transactions := s.1, txPool := s.2 }

/-- HashBlockStateRoot rewards the coinbase (discarding the returned error,
as the source does), executes the transactions and returns the root hash of
the resulting state trie, together with the mutated block (core/block.go). -/
def HashBlockStateRoot (block : Block) : Hash × Block :=
  let b1 := (rewardCoinbase block).2
  let b2 := executeTransactions b1
  (trieRootHash b2.stateTrie, b2)

/-- Seal seals the block: no-op when already sealed, otherwise store the
block hash, then the state root computed by HashBlockStateRoot (whose
mutations of the block persist), then flip the sealed flag
(core/block.go). -/
def Seal (block : Block) : Block :=
  if block.sealed then block
  else
    let b1 := { block with header := { block.header with hash := HashBlock block } }
    let r := HashBlockStateRoot b1
    { r.2 with header := { r.2.header with stateRoot := r.1 }, sealed := true }

/-- Modelled from the spec: the consensus backend collaborator, whose
VerifyBlock validates consensus-specific fields and returns an optional
error code (spec section 6). -/
structure BlockChain where
  consensusVerifyBlock : Block → Option Nat

/-- Structural verification of the transactions in list order, returning
the first transaction's error (core/block.go VerifyHash, third stage). -/
def verifyTxs : List Tx → Option Err
  | [] => none
  | tx :: rest =>
    match txVerify tx with
    | some c => some (Err.txVerify c)
    | none => verifyTxs rest

/-- VerifyHash checks the consensus backend, then compares the recomputed
HashBlock with the stored header hash, then verifies every transaction in
list order (core/block.go). -/
def VerifyHash (bc : BlockChain) (block : Block) : Option Err :=
  match bc.consensusVerifyBlock block with
  | some c => some (Err.consensus c)
  | none =>
    if HashBlock block = block.header.hash then verifyTxs block.transactions
    else some Err.invalidBlockHash

/-- VerifyStateRoot recomputes HashBlockStateRoot (mutating the block, as the
source does on the same in-memory instance) and compares it with the stored
header state root (core/block.go). -/
def VerifyStateRoot (block : Block) : Option Err × Block :=
  let r := HashBlockStateRoot block
  if r.1 = block.header.stateRoot then (none, r.2)
  else (some Err.invalidBlockStateRoot, r.2)

/-- Verify runs VerifyHash then VerifyStateRoot, returning the first failure
(core/block.go). -/
def Verify (bc : BlockChain) (block : Block) : Option Err × Block :=
  match VerifyHash bc block with
  | some e => (some e, block)
  | none => VerifyStateRoot block

/-- First loop of the height resolution of LinkParentBlock: walk the
ancestor chain counting depth and recording each visited height, stopping at
the first strictly positive height or at the parentless end of the chain
(core/block.go). -/
def heightWalk : List Block → Nat × Nat
  | [] => (0, 0)
  | b :: rest =>
    if b.height > 0 then (1, b.height)
    else
      match rest with
      | [] => (1, b.height)
      | c :: rest2 =>
        let r := heightWalk (c :: rest2)
        (r.1 + 1, r.2)

/-- Second loop of the height resolution of LinkParentBlock: while the
remaining depth exceeds one, decrement it and assign the visited block the
terminal ancestor height plus the remaining depth (core/block.go). -/
def assignHeights : List Block → Nat → Nat → List Block
  | [], _, _ => []
  | b :: rest, depth, ancestorHeight =>
    if 1 < depth then
      { b with height := ancestorHeight + (depth - 1) } ::
        assignHeights rest (depth - 1) ancestorHeight
    else b :: rest

/-- LinkParentBlock links the block to its parent chain (core/block.go): on
a parent-hash mismatch it returns false with everything unchanged; otherwise
it clones the parent's state trie into the block, records the parent link
(here: conses the block onto the chain), resolves heights by the two-loop
ancestor walk, and returns true.  The result carries the flag, the updated
block and the updated ancestor chain. -/
def linkParentBlock (block parentBlock : Block) (ancestors : List Block) :
    Bool × Block × List Block :=
  if block.header.parentHash = parentBlock.header.hash then
    let chain := { block with stateTrie := parentBlock.stateTrie } ::
      parentBlock :: ancestors
    let w := heightWalk chain
    match assignHeights chain w.1 w.2 with
    | [] => (true, block, parentBlock :: ancestors)
    | b :: rest => (true, b, rest)
  else (false, block, parentBlock :: ancestors)

/-- Freshly built block with no transactions and an untouched coinbase
account, used for the seal-then-verify round trip. -/
def freshBlock : Block :=
  { header := { hash := [], parentHash := [], stateRoot := [], nonce := 0,
                coinbase := [1], timestamp := 0, chainID := 0 },
    transactions := [], sealed := false, height := 0,
    stateTrie := [], txsTrie := [], txPool := [] }

/-- Transaction whose execution fails. -/
def failTx : Tx :=
  { hash := [7], succeeds := false, writes := [], verifyErr := none }

/-- Transaction whose execution succeeds. -/
def okTx : Tx :=
  { hash := [8], succeeds := true, writes := [], verifyErr := none }

/-- Block holding two transactions of which the one at index zero fails
execution. -/
def firstTxFailsBlock : Block :=
  { freshBlock with transactions := [failTx, okTx] }

/-- Parentless genesis block of height zero. -/
def genesisBlock : Block :=
  { header := { hash := [9], parentHash := [], stateRoot := [], nonce := 0,
                coinbase := [1], timestamp := 0, chainID := 0 },
    transactions := [], sealed := true, height := 0,
    stateTrie := [], txsTrie := [], txPool := [] }

/-- Block A of the linking scenario, whose parent hash matches the genesis
hash and whose height is still unresolved. -/
def blockA : Block :=
  { header := { hash := [8], parentHash := [9], stateRoot := [], nonce := 0,
                coinbase := [1], timestamp := 0, chainID := 0 },
    transactions := [], sealed := true, height := 0,
    stateTrie := [], txsTrie := [], txPool := [] }

/-- Block B of the linking scenario, whose parent hash matches block A. -/
def blockB : Block :=
  { header := { hash := [7], parentHash := [8], stateRoot := [], nonce := 0,
                coinbase := [1], timestamp := 0, chainID := 0 },
    transactions := [], sealed := false, height := 0,
    stateTrie := [], txsTrie := [], txPool := [] }

/-- Copy of block A with an already resolved height. -/
def blockA5 : Block :=
  { blockA with height := 5 }

/-- Block whose coinbase entry in the state trie holds malformed account
bytes, so that the account decode of the reward step fails. -/
def badCoinbaseBlock : Block :=
  { freshBlock with stateTrie := [([1], [0])] }

/-- Sealed block whose stored hash and state root both match recomputation:
the transaction list is empty and the malformed coinbase record makes the
reward step of the recomputation a no-op, so the whole pipeline passes. -/
def consistentBlock : Block :=
  { header := { hash := [0, 0, 0, 0, 0, 0, 0, 0, 1, 0, 0, 0, 0, 0, 0, 0, 0],
                parentHash := [], stateRoot := [1, 1, 1, 0], nonce := 0,
                coinbase := [1], timestamp := 0, chainID := 0 },
    transactions := [], sealed := true, height := 0,
    stateTrie := [([1], [0])], txsTrie := [], txPool := [] }

/-- Consensus backend that accepts every block. -/
def acceptAllChain : BlockChain :=
  ⟨fun _ => none⟩

/-- Transaction with a 32-byte hash whose execution succeeds. -/
def wideOkTx : Tx :=
  { hash := List.replicate 32 7, succeeds := true, writes := [], verifyErr := none }

/-- Transaction with a 32-byte hash whose execution fails. -/
def wideFailTx : Tx :=
  { hash := List.replicate 32 9, succeeds := false, writes := [], verifyErr := none }

/-- Block holding two 32-byte-hash transactions of which the second fails
execution, so sealing removes it. -/
def secondTxFailsBlock : Block :=
  { freshBlock with transactions := [wideOkTx, wideFailTx] }

theorem trieGet_triePut_self (k v : List Nat) (t : Trie) :
    trieGet k (triePut k v t) = some v := by
  induction t with
  | nil => simp [triePut, trieGet]
  | cons p rest ih =>
    by_cases h : p.1 = k
    · simp [triePut, trieGet, h]
    · simp [triePut, trieGet, h, ih]

theorem triePut_of_trieGet_none (k v : List Nat) (t : Trie)
    (h : trieGet k t = none) : triePut k v t = t ++ [(k, v)] := by
  induction t with
  | nil => simp [triePut]
  | cons p rest ih =>
    by_cases h1 : p.1 = k
    · simp [trieGet, h1] at h
    · simp only [trieGet, h1, if_false] at h
      simp [triePut, h1, ih h]

theorem triePut_last_same (k v w : List Nat) (t : Trie)
    (h : trieGet k t = none) : triePut k v (t ++ [(k, w)]) = t ++ [(k, v)] := by
  induction t with
  | nil => simp [triePut]
  | cons p rest ih =>
    by_cases h1 : p.1 = k
    · simp [trieGet, h1] at h
    · simp only [trieGet, h1, if_false] at h
      simp [triePut, h1, ih h]

theorem trieRootHash_append (t s : Trie) :
    trieRootHash (t ++ s) = trieRootHash t ++ trieRootHash s := by
  induction t with
  | nil => simp [trieRootHash]
  | cons p rest ih => simp [trieRootHash, ih]

theorem rewardCoinbase_header (b : Block) :
    (rewardCoinbase b).2.header = b.header := by
  rcases hg : trieGet b.header.coinbase b.stateTrie with _ | v
  · simp [rewardCoinbase, hg]
  · rcases hd : decodeAccount v with _ | bal
    · simp [rewardCoinbase, hg, hd]
    · simp [rewardCoinbase, hg, hd]

theorem rewardCoinbase_transactions (b : Block) :
    (rewardCoinbase b).2.transactions = b.transactions := by
  rcases hg : trieGet b.header.coinbase b.stateTrie with _ | v
  · simp [rewardCoinbase, hg]
  · rcases hd : decodeAccount v with _ | bal
    · simp [rewardCoinbase, hg, hd]
    · simp [rewardCoinbase, hg, hd]

theorem executeTransactions_header (b : Block) :
    (executeTransactions b).header = b.header := rfl

theorem executeTransactions_nil (b : Block) (h : b.transactions = []) :
    executeTransactions b = b := by
  cases b with
  | mk header txs sealed height st tt pool =>
    have h' : txs = [] := h
    subst h'
    rfl

theorem Seal_fields (b : Block) (hs : b.sealed = false) :
    (Seal b).header.hash = HashBlock b ∧
    (Seal b).header.parentHash = b.header.parentHash ∧
    (Seal b).header.nonce = b.header.nonce ∧
    (Seal b).header.coinbase = b.header.coinbase ∧
    (Seal b).header.timestamp = b.header.timestamp := by
  simp [Seal, hs, HashBlockStateRoot, executeTransactions_header, rewardCoinbase_header]

theorem verifyTxs_all_none (l : List Tx) (h : ∀ u ∈ l, u.verifyErr = none) :
    verifyTxs l = none := by
  induction l with
  | nil => rfl
  | cons tx rest ih =>
    have h1 : tx.verifyErr = none := h tx (by simp)
    simp [verifyTxs, txVerify, h1]
    exact ih fun u hu => h u (by simp [hu])

theorem verifyTxs_first_err (pre : List Tx) (t : Tx) (post : List Tx) (c : Nat)
    (hpre : ∀ u ∈ pre, u.verifyErr = none) (ht : t.verifyErr = some c) :
    verifyTxs (pre ++ t :: post) = some (Err.txVerify c) := by
  induction pre with
  | nil => simp [verifyTxs, txVerify, ht]
  | cons u rest ih =>
    have h1 : u.verifyErr = none := hpre u (by simp)
    simp [verifyTxs, txVerify, h1]
    exact ih fun x hx => hpre x (by simp [hx])

theorem flatten_map_hash_length (l : List Tx)
    (h : ∀ u ∈ l, u.hash.length = 32) :
    ((l.map Tx.hash).flatten).length = 32 * l.length := by
  induction l with
  | nil => simp
  | cons tx rest ih =>
    have h1 : tx.hash.length = 32 := h tx (by simp)
    simp [h1, ih fun u hu => h u (by simp [hu]), Nat.mul_succ]
    omega

theorem hashBlock_congr (b1 b2 : Block)
    (hp : b1.header.parentHash = b2.header.parentHash)
    (hn : b1.header.nonce = b2.header.nonce)
    (hc : b1.header.coinbase = b2.header.coinbase)
    (ht : b1.header.timestamp = b2.header.timestamp)
    (hx : b1.transactions.map Tx.hash = b2.transactions.map Tx.hash) :
    HashBlock b1 = HashBlock b2 := by
  simp [HashBlock, sha3New256, hashBlockInput, hp, hn, hc, ht, hx]

theorem heightWalk_all_zero (c : List Block) (hne : c ≠ [])
    (h0 : ∀ x ∈ c, x.height = 0) : heightWalk c = (c.length, 0) := by
  induction c with
  | nil => cases hne rfl
  | cons b rest ih =>
    have hb : b.height = 0 := h0 b (by simp)
    cases rest with
    | nil => simp [heightWalk, hb]
    | cons c2 rest2 =>
      have hr := ih (by simp) fun x hx => h0 x (by simp [hx])
      simp [heightWalk, hb, hr]

theorem assignHeights_cons_pos (b : Block) (rest : List Block)
    (depth ancestorHeight : Nat) (h : 1 < depth) :
    assignHeights (b :: rest) depth ancestorHeight
      = { b with height := ancestorHeight + (depth - 1) } ::
          assignHeights rest (depth - 1) ancestorHeight := by
  simp [assignHeights, h]

theorem assignHeights_all_zero (c : List Block)
    (h0 : ∀ x ∈ c, x.height = 0) :
    (assignHeights c c.length 0).map Block.height
      = (List.range c.length).map (fun i => c.length - 1 - i) := by
  induction c with
  | nil => simp [assignHeights]
  | cons b rest ih =>
    cases rest with
    | nil =>
      have hb : b.height = 0 := h0 b (by simp)
      simp [assignHeights, hb]
    | cons c2 rest2 =>
      have hr := ih fun x hx => h0 x (by simp [hx])
      have hd : 1 < (b :: c2 :: rest2).length := by simp
      rw [assignHeights_cons_pos _ _ _ _ hd]
      have hl : (b :: c2 :: rest2).length - 1 = (c2 :: rest2).length := by simp
      rw [hl, List.map_cons, hr]
      have hrange : List.range (b :: c2 :: rest2).length
          = 0 :: (List.range (c2 :: rest2).length).map Nat.succ := by
        rw [show (b :: c2 :: rest2).length = (c2 :: rest2).length + 1 from rfl,
          List.range_succ_eq_map]
      rw [hrange, List.map_cons, List.map_map]
      simp only [List.cons.injEq]
      constructor
      · simp
      · apply List.map_congr_left
        intro i hi
        simp only [Function.comp]
        simp at hi ⊢

/-- C1 (counterexample): on a freshly built block with no transactions and an
untouched coinbase, Seal succeeds but the immediately following
VerifyStateRoot on the same instance returns ErrInvalidBlockStateRoot, so the
claim that seal-then-verify succeeds is false as stated: HashBlockStateRoot
re-applies the coinbase reward, changing the trie root. -/
theorem C1_counterexample :
    freshBlock.sealed = false ∧
    (VerifyStateRoot (Seal freshBlock)).1 = some Err.invalidBlockStateRoot :=
  ⟨rfl, by decide⟩

/-- C1 (amended): for every unsealed block with an empty transaction list and
a coinbase account absent from the state trie, VerifyStateRoot right after
Seal on the same in-memory instance fails with ErrInvalidBlockStateRoot,
because the recomputation applies the block reward a second time and the
doubled coinbase balance changes the state root. -/
theorem C1_amended_roundtrip_fails (b : Block) (hs : b.sealed = false)
    (ht : b.transactions = []) (hg : trieGet b.header.coinbase b.stateTrie = none) :
    (VerifyStateRoot (Seal b)).1 = some Err.invalidBlockStateRoot := by
  have he16 : encodeAccount ((0 + BlockReward) % UINT64) = [16] := by decide
  have he32 : encodeAccount ((16 + BlockReward) % UINT64) = [32] := by decide
  have hd16 : decodeAccount [16] = some 16 := by decide
  have hSeal : Seal b
      = { b with
          header := { b.header with hash := HashBlock b, stateRoot := trieRootHash (triePut b.header.coinbase [16] b.stateTrie) },
          sealed := true,
          stateTrie := triePut b.header.coinbase [16] b.stateTrie } := by
    simp only [Seal, hs, Bool.false_eq_true, if_false, HashBlockStateRoot, rewardCoinbase]
    simp only [hg, he16]
    rw [executeTransactions_nil _ (by simpa using ht)]
  rw [hSeal]
  have hget1 : trieGet b.header.coinbase (triePut b.header.coinbase [16] b.stateTrie)
      = some [16] := trieGet_triePut_self _ _ _
  have hput1 : triePut b.header.coinbase [16] b.stateTrie
      = b.stateTrie ++ [(b.header.coinbase, [16])] :=
    triePut_of_trieGet_none _ _ _ hg
  have hput2 : triePut b.header.coinbase [32] (triePut b.header.coinbase [16] b.stateTrie)
      = b.stateTrie ++ [(b.header.coinbase, [32])] := by
    rw [hput1, triePut_last_same _ _ _ _ hg]
  have hne : trieRootHash (b.stateTrie ++ [(b.header.coinbase, [32])])
      ≠ trieRootHash (b.stateTrie ++ [(b.header.coinbase, [16])]) := by
    rw [trieRootHash_append, trieRootHash_append]
    intro heq
    have h2 := List.append_cancel_left heq
    simp [trieRootHash, encEntry] at h2
  rw [VerifyStateRoot]
  rw [HashBlockStateRoot]
  simp only [rewardCoinbase]
  simp only [hget1, hd16, he32]
  rw [executeTransactions_nil _ (by simpa using ht)]
  simp only [hput2]
  rw [hput1]
  simp [hne]

/-- C1 (witness): the amended statement applied to the concrete fresh
block. -/
theorem C1_witness :
    freshBlock.sealed = false ∧ freshBlock.transactions = [] ∧
    trieGet freshBlock.header.coinbase freshBlock.stateTrie = none ∧
    (VerifyStateRoot (Seal freshBlock)).1 = some Err.invalidBlockStateRoot :=
  ⟨rfl, rfl, rfl, C1_amended_roundtrip_fails freshBlock rfl rfl rfl⟩

/-- C2 (code bug evaluation): in a block with two transactions in which
exactly the one at index zero fails execution, executeTransactions does put
the failed transaction back into the pool, but the branch for index zero of
the removal loop executes `txs = txs[0:]`, which does not shrink the list:
the failed transaction is still in the block's transaction list, so the
block holds two transactions instead of the claimed one. -/
theorem C2_failing_input_eval :
    (executeTransactions firstTxFailsBlock).transactions = [failTx, okTx] ∧
    (executeTransactions firstTxFailsBlock).txPool = [failTx] :=
  ⟨by decide, by decide⟩

/-- C3: linking with a matching parent hash returns true and resolves
heights by the ancestor walk.  First part: a not-yet-resolved child linked
to a parent with strictly positive resolved height gets height
parent.height + 1, with the parent chain unchanged.  Second part: when the
whole parent chain consists of unresolved (zero-height) blocks terminating
in a parentless genesis of height zero, one call assigns every block its
distance from the genesis: the child gets the chain length, and the walked
prefix gets descending heights down to the untouched genesis. -/
theorem C3_link_height_resolution :
    (∀ (b p : Block) (anc : List Block),
      b.header.parentHash = p.header.hash → b.height = 0 → 0 < p.height →
        (linkParentBlock b p anc).1 = true ∧
        (linkParentBlock b p anc).2.1.height = p.height + 1 ∧
        (linkParentBlock b p anc).2.2 = p :: anc) ∧
    (∀ (b p : Block) (anc : List Block),
      b.header.parentHash = p.header.hash → b.height = 0 →
      (∀ x ∈ p :: anc, x.height = 0) →
        (linkParentBlock b p anc).1 = true ∧
        (linkParentBlock b p anc).2.1.height = anc.length + 1 ∧
        (linkParentBlock b p anc).2.2.map Block.height
          = (List.range (anc.length + 1)).map (fun i => anc.length - i)) := by
  constructor
  · intro b p anc hm hb0 hp
    have hwp : heightWalk (p :: anc) = (1, p.height) := by
      cases anc <;> simp [heightWalk, hp]
    have hw : heightWalk ({ b with stateTrie := p.stateTrie } :: p :: anc)
        = (2, p.height) := by
      simp [heightWalk, hb0, hwp]
    have ha : assignHeights ({ b with stateTrie := p.stateTrie } :: p :: anc) 2 p.height
        = { b with stateTrie := p.stateTrie, height := p.height + 1 } :: p :: anc := by
      simp [assignHeights]
    simp [linkParentBlock, hm, hw, ha]
  · intro b p anc hm hb0 h0
    have hzero : ∀ x ∈ { b with stateTrie := p.stateTrie } :: p :: anc, x.height = 0 := by
      intro x hx
      rcases List.mem_cons.mp hx with h | h
      · subst h; simpa using hb0
      · exact h0 x h
    have hw : heightWalk ({ b with stateTrie := p.stateTrie } :: p :: anc)
        = (anc.length + 2, 0) := by
      have := heightWalk_all_zero _ (by simp) hzero
      simpa using this
    have hred : assignHeights ({ b with stateTrie := p.stateTrie } :: p :: anc)
          (anc.length + 2) 0
        = { b with stateTrie := p.stateTrie, height := 0 + (anc.length + 1) } ::
            assignHeights (p :: anc) (anc.length + 1) 0 := by
      have h2 := assignHeights_cons_pos ({ b with stateTrie := p.stateTrie }) (p :: anc)
        (anc.length + 2) 0 (by omega)
      simpa using h2
    have htail := assignHeights_all_zero (p :: anc) h0
    simp only [List.length_cons] at htail
    simp [linkParentBlock, hm, hw, hred, htail]

/-- C3 (witness): the two parts at concrete blocks: linking block B to a
parent of resolved height five yields height six with the parent chain
unchanged, and linking block B to the unresolved block A over the genesis
resolves B to height two and the walked chain to heights one and zero. -/
theorem C3_witness :
    ((linkParentBlock blockB blockA5 []).1 = true ∧
     (linkParentBlock blockB blockA5 []).2.1.height = blockA5.height + 1 ∧
     (linkParentBlock blockB blockA5 []).2.2 = [blockA5]) ∧
    ((linkParentBlock blockB blockA [genesisBlock]).1 = true ∧
     (linkParentBlock blockB blockA [genesisBlock]).2.1.height = 2 ∧
     (linkParentBlock blockB blockA [genesisBlock]).2.2.map Block.height
       = (List.range 2).map (fun i => 1 - i)) :=
  ⟨C3_link_height_resolution.1 blockB blockA5 [] (by decide) rfl (by decide),
   C3_link_height_resolution.2 blockB blockA [genesisBlock] (by decide) rfl (by decide)⟩

/-- C4: when the block's parent hash does not equal the parent's hash,
LinkParentBlock returns false and changes nothing: the block, the parent
and the rest of the ancestor chain all keep the values they had before the
call. -/
theorem C4_link_mismatch_frame (b p : Block) (anc : List Block)
    (h : b.header.parentHash ≠ p.header.hash) :
    linkParentBlock b p anc = (false, b, p :: anc) := by
  simp [linkParentBlock, h]

/-- C4 (witness): the mismatch frame property at concrete blocks. -/
theorem C4_witness :
    blockB.header.parentHash ≠ genesisBlock.header.hash ∧
    linkParentBlock blockB genesisBlock [] = (false, blockB, [genesisBlock]) :=
  ⟨by decide, C4_link_mismatch_frame blockB genesisBlock [] (by decide)⟩

/-- C5: HashBlock is a deterministic pure function of exactly the parent
hash, the nonce, the coinbase, the timestamp and the ordered transaction
hashes: two blocks agreeing on those five inputs hash identically, and the
stateRoot field never influences the result. -/
theorem C5_hashBlock_deterministic (b1 b2 : Block) (r : Hash)
    (hp : b1.header.parentHash = b2.header.parentHash)
    (hn : b1.header.nonce = b2.header.nonce)
    (hc : b1.header.coinbase = b2.header.coinbase)
    (ht : b1.header.timestamp = b2.header.timestamp)
    (hx : b1.transactions.map Tx.hash = b2.transactions.map Tx.hash) :
    HashBlock b1 = HashBlock b2 ∧
    HashBlock { b1 with header := { b1.header with stateRoot := r } } = HashBlock b1 :=
  ⟨hashBlock_congr b1 b2 hp hn hc ht hx,
   hashBlock_congr _ _ rfl rfl rfl rfl rfl⟩

/-- C5 (witness): two concrete blocks differing only in their state trie
hash identically, and overwriting the stateRoot leaves the hash
unchanged. -/
theorem C5_witness :
    HashBlock freshBlock = HashBlock badCoinbaseBlock ∧
    HashBlock { freshBlock with header := { freshBlock.header with stateRoot := [5] } }
      = HashBlock freshBlock :=
  C5_hashBlock_deterministic freshBlock badCoinbaseBlock [5] rfl rfl rfl rfl rfl

/-- C6: SetNonce, SetTimestamp and AddTransactions abort with the sealed
contract violation (modelled as none) exactly when the block is sealed, and
on an unsealed block they perform the mutation: set the nonce, set the
timestamp, or append the given transactions in order. -/
theorem C6_mutators_sealed_contract (b : Block) (n : Nat) (t : Int) (txs : List Tx) :
    (SetNonce b n = none ↔ b.sealed = true) ∧
    (SetTimestamp b t = none ↔ b.sealed = true) ∧
    (AddTransactions b txs = none ↔ b.sealed = true) ∧
    (b.sealed = false →
      SetNonce b n = some { b with header := { b.header with nonce := n } } ∧
      SetTimestamp b t = some { b with header := { b.header with timestamp := t } } ∧
      AddTransactions b txs = some { b with transactions := b.transactions ++ txs }) := by
  cases hs : b.sealed <;> simp [SetNonce, SetTimestamp, AddTransactions, hs]

/-- C6 (witness): SetNonce mutates the unsealed fresh block and aborts on
the sealed one. -/
theorem C6_witness :
    SetNonce freshBlock 5
      = some { freshBlock with header := { freshBlock.header with nonce := 5 } } ∧
    SetNonce (Seal freshBlock) 5 = none :=
  ⟨((C6_mutators_sealed_contract freshBlock 5 0 []).2.2.2 rfl).1,
   (C6_mutators_sealed_contract (Seal freshBlock) 5 0 []).1.mpr (by decide)⟩

/-- C7: Seal is idempotent on an already sealed block: a further call
returns the block completely unchanged, so the header hash, the state root,
the transaction list, the state trie and the sealed flag all keep the
values set by the first Seal. -/
theorem C7_seal_idempotent (b : Block) (h : b.sealed = true) : Seal b = b := by
  simp [Seal, h]

/-- C7 (witness): sealing the already sealed fresh block changes nothing. -/
theorem C7_witness : Seal (Seal freshBlock) = Seal freshBlock :=
  C7_seal_idempotent (Seal freshBlock) (by decide)

/-- C8 (counterexample): with a malformed coinbase record in the state trie,
rewardCoinbase returns the decode error, and yet sealing the block still
commits a state root: HashBlockStateRoot discards the reward error and
proceeds, contradicting the claim that the state-root computation does not
proceed to commit a state root on such a failure. -/
theorem C8_counterexample :
    (rewardCoinbase badCoinbaseBlock).1 = some Err.decodeAccount ∧
    badCoinbaseBlock.header.stateRoot = [] ∧
    (Seal badCoinbaseBlock).header.stateRoot = [1, 1, 1, 0] :=
  ⟨by decide, rfl, by decide⟩

/-- C8 (amended): rewardCoinbase fails exactly when the stored coinbase
record does not decode, it then returns that error and leaves the block
untouched; but HashBlockStateRoot ignores the error and still proceeds: it
executes the transactions and returns the resulting state root. -/
theorem C8_amended_reward_error_ignored (b : Block) :
    ((rewardCoinbase b).1 ≠ none ↔
      ∃ v, trieGet b.header.coinbase b.stateTrie = some v ∧ decodeAccount v = none) ∧
    ((rewardCoinbase b).1 ≠ none →
      (rewardCoinbase b).1 = some Err.decodeAccount ∧
      (rewardCoinbase b).2 = b ∧
      HashBlockStateRoot b
        = (trieRootHash (executeTransactions b).stateTrie, executeTransactions b)) := by
  rcases hg : trieGet b.header.coinbase b.stateTrie with _ | v
  · constructor
    · constructor
      · intro h; exfalso; apply h; simp [rewardCoinbase, hg]
      · rintro ⟨v, hv, _⟩; simp at hv
    · intro h; exfalso; apply h; simp [rewardCoinbase, hg]
  · rcases hd : decodeAccount v with _ | bal
    · have he : (rewardCoinbase b).2 = b := by simp [rewardCoinbase, hg, hd]
      refine ⟨⟨fun _ => ⟨v, rfl, hd⟩, fun _ => by simp [rewardCoinbase, hg, hd]⟩, fun _ => ?_⟩
      exact ⟨by simp [rewardCoinbase, hg, hd], he, by simp [HashBlockStateRoot, he]⟩
    · constructor
      · constructor
        · intro h; exfalso; apply h; simp [rewardCoinbase, hg, hd]
        · rintro ⟨w, hw, hdw⟩
          injection hw with hvw
          subst hvw
          rw [hd] at hdw
          simp at hdw
      · intro h; exfalso; apply h; simp [rewardCoinbase, hg, hd]

/-- C8 (witness): the amended statement applied to the concrete block whose
coinbase record is malformed. -/
theorem C8_witness :
    (rewardCoinbase badCoinbaseBlock).1 = some Err.decodeAccount ∧
    (rewardCoinbase badCoinbaseBlock).2 = badCoinbaseBlock ∧
    HashBlockStateRoot badCoinbaseBlock
      = (trieRootHash (executeTransactions badCoinbaseBlock).stateTrie,
         executeTransactions badCoinbaseBlock) :=
  (C8_amended_reward_error_ignored badCoinbaseBlock).2 (by decide)

/-- C9: the verification pipeline runs its stages in order, returning the
first failure: the consensus backend error is propagated verbatim; with
consensus passing, a hash mismatch yields ErrInvalidBlockHash; with both
passing, the first failing transaction verification in list order is
returned, and none when all pass; Verify returns a VerifyHash failure
without running VerifyStateRoot (the block is untouched), runs
VerifyStateRoot otherwise, and succeeds exactly when both stages
succeed. -/
theorem C9_verify_pipeline (bc : BlockChain) (b : Block) :
    (∀ c, bc.consensusVerifyBlock b = some c → VerifyHash bc b = some (Err.consensus c)) ∧
    (bc.consensusVerifyBlock b = none → HashBlock b ≠ b.header.hash →
      VerifyHash bc b = some Err.invalidBlockHash) ∧
    (bc.consensusVerifyBlock b = none → HashBlock b = b.header.hash →
      ∀ pre t post c, b.transactions = pre ++ t :: post →
        (∀ u ∈ pre, u.verifyErr = none) → t.verifyErr = some c →
        VerifyHash bc b = some (Err.txVerify c)) ∧
    (bc.consensusVerifyBlock b = none → HashBlock b = b.header.hash →
      (∀ u ∈ b.transactions, u.verifyErr = none) → VerifyHash bc b = none) ∧
    (∀ e, VerifyHash bc b = some e → Verify bc b = (some e, b)) ∧
    (VerifyHash bc b = none → Verify bc b = VerifyStateRoot b) ∧
    ((Verify bc b).1 = none ↔ VerifyHash bc b = none ∧ (VerifyStateRoot b).1 = none) := by
  refine ⟨?_, ?_, ?_, ?_, ?_, ?_, ?_⟩
  · intro c hc; simp [VerifyHash, hc]
  · intro hc hh; simp [VerifyHash, hc, hh]
  · intro hc hh pre t post c htx hpre hterr
    simp [VerifyHash, hc, hh, htx, verifyTxs_first_err pre t post c hpre hterr]
  · intro hc hh hall; simp [VerifyHash, hc, hh, verifyTxs_all_none _ hall]
  · intro e he; simp [Verify, he]
  · intro he; simp [Verify, he]
  · cases hv : VerifyHash bc b with
    | some e => simp [Verify, hv]
    | none => simp [Verify, hv]

/-- C9 (witness): the full pipeline succeeds on a concrete consistent
sealed block under the all-accepting consensus backend. -/
theorem C9_witness : (Verify acceptAllChain consistentBlock).1 = none :=
  (C9_verify_pipeline acceptAllChain consistentBlock).2.2.2.2.2.2.mpr
    ⟨by decide, by decide⟩

/-- C10: Seal stores as header hash the HashBlock of the block as it stands
before transaction execution; when sealing removes no transaction the
recomputed HashBlock equals the stored hash, and when sealing shrank the
transaction list (with 32-byte transaction hashes, as in the source) the
stored hash does not match the final transaction list. -/
theorem C10_seal_hash_pre_execution (b : Block) (hs : b.sealed = false) :
    (Seal b).header.hash = HashBlock b ∧
    ((Seal b).transactions = b.transactions →
      HashBlock (Seal b) = (Seal b).header.hash) ∧
    ((Seal b).transactions.length < b.transactions.length →
      (∀ u ∈ b.transactions, u.hash.length = 32) →
      (∀ u ∈ (Seal b).transactions, u.hash.length = 32) →
      HashBlock (Seal b) ≠ (Seal b).header.hash) := by
  obtain ⟨hh, hp, hn, hc, ht⟩ := Seal_fields b hs
  refine ⟨hh, ?_, ?_⟩
  · intro htx
    rw [hh]
    exact hashBlock_congr _ _ hp hn hc ht (by rw [htx])
  · intro hlen h32 h32'
    rw [hh]
    intro heq
    have hle := congrArg List.length heq
    simp only [HashBlock, sha3New256, hashBlockInput, List.length_append] at hle
    rw [hp, hn, hc, ht] at hle
    rw [flatten_map_hash_length _ h32', flatten_map_hash_length _ h32] at hle
    omega

/-- C10 (witness): on the fresh block nothing is removed and the stored
hash matches recomputation; on the concrete block whose second transaction
fails execution, sealing removes it and the stored hash no longer matches
the final transaction list. -/
theorem C10_witness :
    (Seal freshBlock).header.hash = HashBlock freshBlock ∧
    HashBlock (Seal freshBlock) = (Seal freshBlock).header.hash ∧
    HashBlock (Seal secondTxFailsBlock) ≠ (Seal secondTxFailsBlock).header.hash :=
  ⟨(C10_seal_hash_pre_execution freshBlock rfl).1,
   (C10_seal_hash_pre_execution freshBlock rfl).2.1 (by decide),
   (C10_seal_hash_pre_execution secondTxFailsBlock rfl).2.2 (by decide) (by decide) (by decide)⟩

end Nebulas
